import Mathlib

/-!
# Verification of the Italian fiscal-code codec (`codicefiscale.py`)

This file gives a shallow embedding of the single source module
`codicefiscale.py` (a Python 2 library) into Lean 4, and proves or refutes
the frozen claims about it.

Modelling conventions:
* Python strings are `List Char` (ASCII portion; `str.upper()` is modelled
  character-wise on the ASCII letters).
* Code that can raise (`list.pop` on an empty list, `dict` `KeyError`,
  `list.index` `ValueError`, `int()` `ValueError`, failed `assert`) is
  modelled with `Option`: `none` means the Python function raises.
* Python `dict`s built by `enumerate` over the digit / uppercase alphabets
  are modelled with `List.indexOf?` over those alphabets (the key sets are
  disjoint, so insertion order is irrelevant).
* `isvalid` receives an arbitrary Python value; the `isinstance(code,
  basestring)` test is modelled with a sum type `PyVal` separating text
  from every other value.
-/

namespace Codicefiscale

/-- The ten ASCII digits, in order (`string.digits`). -/
def DIGITS : List Char := ['0', '1', '2', '3', '4', '5', '6', '7', '8', '9']

/-- The uppercase alphabet, in order (`string.ascii_uppercase`). -/
def AZ : List Char :=
  ['A', 'B', 'C', 'D', 'E', 'F', 'G', 'H', 'I', 'J', 'K', 'L', 'M',
   'N', 'O', 'P', 'Q', 'R', 'S', 'T', 'U', 'V', 'W', 'X', 'Y', 'Z']

/-- `__VOWELS = ['A', 'E', 'I', 'O', 'U']`. -/
def VOWELS : List Char := ['A', 'E', 'I', 'O', 'U']

/-- Membership in `__VOWELS`. -/
def isVowel (c : Char) : Bool := c ∈ VOWELS

/-- `__CONSONANTS`: the uppercase letters minus the vowels
(`set(string.ascii_uppercase).difference(__VOWELS)`). -/
def isConsonant (c : Char) : Bool := c ∈ AZ && !(c ∈ VOWELS)

/-- `MONTHSCODE = ['A','B','C','D','E','H','L','M','P','R','S','T']`. -/
def MONTHSCODE : List Char :=
  ['A', 'B', 'C', 'D', 'E', 'H', 'L', 'M', 'P', 'R', 'S', 'T']

/-- The omocodia letters, in order: digit `d` aliases to `OMOCODIA[d]`
(the string `'LMNPQRSTUV'` used in `get_birthday`). -/
def OMOCODIA : List Char := ['L', 'M', 'N', 'P', 'Q', 'R', 'S', 'T', 'U', 'V']

/-- ASCII `str.upper()` on one character: each lowercase letter goes to its
uppercase partner, everything else is unchanged. -/
def pyToUpper (c : Char) : Char :=
  if c = 'a' then 'A' else if c = 'b' then 'B' else if c = 'c' then 'C'
  else if c = 'd' then 'D' else if c = 'e' then 'E' else if c = 'f' then 'F'
  else if c = 'g' then 'G' else if c = 'h' then 'H' else if c = 'i' then 'I'
  else if c = 'j' then 'J' else if c = 'k' then 'K' else if c = 'l' then 'L'
  else if c = 'm' then 'M' else if c = 'n' then 'N' else if c = 'o' then 'O'
  else if c = 'p' then 'P' else if c = 'q' then 'Q' else if c = 'r' then 'R'
  else if c = 's' then 'S' else if c = 't' then 'T' else if c = 'u' then 'U'
  else if c = 'v' then 'V' else if c = 'w' then 'W' else if c = 'x' then 'X'
  else if c = 'y' then 'Y' else if c = 'z' then 'Z' else c

/-- `str.upper()` on a whole string. -/
def pyUpper (s : List Char) : List Char := s.map pyToUpper

/-- The decimal digit characters of a natural number, most significant
first, with explicit fuel so that the definition is structural (Python
`str(n)` for a non-negative `n`).  The fuel is always sufficient when it
exceeds the number of digits; `natRepr` passes `n + 1`. -/
def natReprAux : Nat → Nat → List Char
  | 0, _ => []
  | f + 1, n =>
    if n < 10 then [DIGITS.getD n '0']
    else natReprAux f (n / 10) ++ [DIGITS.getD (n % 10) '0']

/-- Python `str(n)` for a natural number `n`. -/
def natRepr (n : Nat) : List Char := natReprAux (n + 1) n

/-- Python `"%02d" % n` for a natural `n`: the decimal representation,
left-padded with a single `'0'` when it has fewer than two characters. -/
def format2 (n : Nat) : List Char :=
  let s := natRepr n
  if s.length < 2 then '0' :: s else s

/-- Python `"%02d" % n` for an integer `n` (negative values carry a leading
minus sign, which counts towards the field width). -/
def format2i (n : Int) : List Char :=
  let s := if n < 0 then '-' :: natRepr (-n).toNat else natRepr n.toNat
  if s.length < 2 then '0' :: s else s

/-- `input_string.upper().replace(' ', '')` — the normalisation performed by
`__consonants_and_vowels`. -/
def normalized (s : List Char) : List Char := (pyUpper s).filter (· ≠ ' ')

/-- The consonant string computed by `__consonants_and_vowels`. -/
def consonantsOf (s : List Char) : List Char := (normalized s).filter isConsonant

/-- The vowel list computed by `__consonants_and_vowels`. -/
def vowelsOf (s : List Char) : List Char := (normalized s).filter isVowel

/-- The `while len(output) < stopat: output += vowels.pop(0)` loop of
`__common_triplet`.  Popping from an empty vowel list raises `IndexError`,
modelled as `none`.  Structural recursion on the vowel list. -/
def fillVowels (stopat : Nat) : List Char → List Char → Option (List Char)
  | output, [] => if output.length < stopat then none else some output
  | output, v :: vs =>
    if output.length < stopat then fillVowels stopat (output ++ [v]) vs
    else some output

/-- `__common_triplet(input_string, consonants, vowels)`. -/
def common_triplet (input_string consonants vowels : List Char) :
    Option (List Char) :=
  let stopat := if input_string.length > 2 then 3 else 2
  match fillVowels stopat consonants vowels with
  | none => none
  | some output =>
    let output := if output.length = 2 then output ++ ['X'] else output
    some (output.take 3)

/-- `__surname_triplet(input_string)`. -/
def surname_triplet (input_string : List Char) : Option (List Char) :=
  common_triplet input_string (consonantsOf input_string) (vowelsOf input_string)

/-- `__name_triplet(input_string)`. -/
def name_triplet (input_string : List Char) : Option (List Char) :=
  if input_string = [] then some ['X', 'X', 'X']
  else
    let consonants := consonantsOf input_string
    if h : consonants.length > 3 then
      some [consonants.get ⟨0, by omega⟩, consonants.get ⟨2, by omega⟩,
            consonants.get ⟨3, by omega⟩]
    else common_triplet input_string consonants (vowelsOf input_string)

/-- The `even_controlcode` dictionary: digits map to their index in
`string.digits`, uppercase letters to their index in
`string.ascii_uppercase`; any other key raises `KeyError` (`none`). -/
def even_controlcode (c : Char) : Option Nat :=
  if c ∈ DIGITS then DIGITS.indexOf? c
  else if c ∈ AZ then AZ.indexOf? c
  else none

/-- The fixed table `values` used for odd positions. -/
def oddValues : List Nat :=
  [1, 0, 5, 7, 9, 13, 15, 17, 19, 21, 2, 4, 18, 20, 11, 3, 6, 8,
   12, 14, 16, 10, 22, 25, 24, 23]

/-- The `odd_controlcode` dictionary: `values[idx]` where `idx` is the
character's own index among the digits, resp. among the letters. -/
def odd_controlcode (c : Char) : Option Nat :=
  if c ∈ DIGITS then (DIGITS.indexOf? c).bind (fun i => oddValues.get? i)
  else if c ∈ AZ then (AZ.indexOf? c).bind (fun i => oddValues.get? i)
  else none

/-- The summation loop of `control_code`, carrying the running 0-based
position `idx`: even positions use the odd table, odd positions the even
table. -/
def ccSum : Nat → List Char → Option Nat
  | _, [] => some 0
  | idx, c :: cs => do
    let v ← if idx % 2 = 0 then odd_controlcode c else even_controlcode c
    let rest ← ccSum (idx + 1) cs
    pure (v + rest)

/-- `string.ascii_uppercase[n]` for `n < 26` (the only use is `n % 26`,
always in range). -/
def alphaChar (n : Nat) : Char := AZ.getD n 'A'

/-- `control_code(input_string)`: asserts the length is exactly 15
(`none` on violation), then returns the letter at `(sum mod 26)`. -/
def control_code (input_string : List Char) : Option Char :=
  if input_string.length = 15 then
    (ccSum 0 input_string).map (fun total => alphaChar (total % 26))
  else none

/-- The character class `[0-9LMNPQRSTUV]` of the validation regex. -/
def isOmo (c : Char) : Bool := c ∈ DIGITS || c ∈ OMOCODIA

/-- The character class `[ABCDEHLMPRST]` of the validation regex. -/
def isMonthChar (c : Char) : Bool :=
  c ∈ (['A', 'B', 'C', 'D', 'E', 'H', 'L', 'M', 'P', 'R', 'S', 'T'] : List Char)

/-- The character class `[A-Z]` of the validation regex. -/
def isAZ (c : Char) : Bool := c ∈ AZ

/-- The anchored validation regex
`^[A-Z]{6}[0-9LMNPQRSTUV]{2}[ABCDEHLMPRST]{1}[0-9LMNPQRSTUV]{2}[A-Z]{1}[0-9LMNPQRSTUV]{3}[A-Z]{1}$`
as a fixed-position character-class check on a 16-character string. -/
def pattern_match (s : List Char) : Bool :=
  match s with
  | [c0, c1, c2, c3, c4, c5, c6, c7, c8, c9, c10, c11, c12, c13, c14, c15] =>
    isAZ c0 && isAZ c1 && isAZ c2 && isAZ c3 && isAZ c4 && isAZ c5 &&
    isOmo c6 && isOmo c7 && isMonthChar c8 && isOmo c9 && isOmo c10 &&
    isAZ c11 && isOmo c12 && isOmo c13 && isOmo c14 && isAZ c15
  | _ => false

/-- `isvalid` applied to a value already known to be text: length check on
the raw string, then uppercase, then pattern, then checksum comparison. -/
def isvalid_str (code : List Char) : Bool :=
  if code.length ≠ 16 then false
  else
    let c := pyUpper code
    if pattern_match c = false then false
    else
      match control_code (c.take 15), c.get? 15 with
      | some a, some b => a = b
      | _, _ => false

/-- A Python value handed to `isvalid`: either text or anything else
(the `isinstance(code, basestring)` test). -/
inductive PyVal where
  | str (s : List Char)
  | nonText

/-- `isvalid(code)`. -/
def isvalid : PyVal → Bool
  | .str s => isvalid_str s
  | .nonText => false

/-- A `datetime.datetime`-style date value (the `datetime` constructor
itself guarantees `1 ≤ month ≤ 12`, `1 ≤ day ≤ 31`, `1 ≤ year ≤ 9999`). -/
structure PyDate where
  year : Nat
  month : Nat
  day : Nat

/-- `build(surname, name, birthday, sex, municipality)`.  Failures of the
inner triplet computation, of `control_code`, or of the final
`assert isvalid(output)` are modelled as `none`. -/
def build (surname name : List Char) (birthday : PyDate) (sex : Char)
    (municipality : List Char) : Option (List Char) := do
  let st ← surname_triplet surname
  let nt ← name_triplet name
  let o2 := st ++ nt ++ (natRepr birthday.year).drop 2
  let mc ← MONTHSCODE.get? (birthday.month - 1)
  let dd := if sex = 'M' then
      (if birthday.day ≠ 0 then birthday.day else 40 + birthday.day)
    else 40 + birthday.day
  let o5 := o2 ++ [mc] ++ format2 dd ++ municipality
  let cc ← control_code o5
  let result := o5 ++ [cc]
  if isvalid_str result then some result else none

/-- The `day_year_charmap` dictionary of `get_birthday`: digits map to
their value, the omocodia letters `LMNPQRSTUV` map to 0–9; other keys
raise `KeyError` (`none`). -/
def day_year_charmap (c : Char) : Option Nat :=
  if c ∈ DIGITS then DIGITS.indexOf? c
  else if c ∈ OMOCODIA then OMOCODIA.indexOf? c
  else none

/-- `get_birthday(code)`: asserts `isvalid`, decodes day, month and year,
and formats `"%02d-%02d-%02d"`.  The day value is passed through the
Python idiom `day < 32 and day or day - 40`, which yields `day - 40`
whenever `day` is zero or at least 32. -/
def get_birthday (code : List Char) : Option (List Char) :=
  if isvalid_str code then do
    let v9 ← (code.get? 9).bind day_year_charmap
    let v10 ← (code.get? 10).bind day_year_charmap
    let day := v9 * 10 + v10
    let dayVal : Int := if day < 32 ∧ day ≠ 0 then (day : Int) else (day : Int) - 40
    let mi ← (code.get? 8).bind (fun c => MONTHSCODE.indexOf? c)
    let v6 ← (code.get? 6).bind day_year_charmap
    let v7 ← (code.get? 7).bind day_year_charmap
    let year := v6 * 10 + v7
    pure (format2i dayVal ++ ['-'] ++ format2i ((mi + 1 : Nat) : Int) ++ ['-'] ++
          format2i ((year : Nat) : Int))
  else none

/-- Python `int(s)` restricted to the shapes that occur here: a non-empty
all-digit string parses to its value, anything else raises `ValueError`
(`none`). -/
def parseNat (s : List Char) : Option Nat :=
  if s ≠ [] ∧ s.all (· ∈ DIGITS) then
    some (s.foldl (fun a c => a * 10 + DIGITS.indexOf c) 0)
  else none

/-- `get_sex(code)`: asserts `isvalid`, then returns
`int(code[9:11]) < 32 and 'M' or 'F'`. -/
def get_sex (code : List Char) : Option Char :=
  if isvalid_str code then
    (parseNat ((code.drop 9).take 2)).map (fun n => if n < 32 then 'M' else 'F')
  else none

/-! ## Auxiliary predicates and spec-side definitions used by the claims -/

/-- The lowercase alphabet, in order (used to reason about `pyToUpper`). -/
def LOWERAZ : List Char :=
  ['a', 'b', 'c', 'd', 'e', 'f', 'g', 'h', 'i', 'j', 'k', 'l', 'm',
   'n', 'o', 'p', 'q', 'r', 's', 't', 'u', 'v', 'w', 'x', 'y', 'z']

/-- The input string has enough letters for `__common_triplet` to reach its
target length without popping an empty vowel list: the consonant count plus
the vowel count is at least 3 when the raw input has more than 2
characters, at least 2 otherwise. -/
def lettersEnough (s : List Char) : Bool :=
  (if s.length > 2 then 3 else 2) ≤ (consonantsOf s).length + (vowelsOf s).length

/-- The given name makes `__name_triplet` succeed: empty, or more than 3
consonants, or enough letters for the common triplet. -/
def nameOk (s : List Char) : Bool :=
  s = [] || 3 < (consonantsOf s).length || lettersEnough s

/-- The municipality code fits its positional classes: exactly 4
characters, one letter followed by three digit-or-omocodia characters. -/
def muniOk : List Char → Bool
  | [u0, u1, u2, u3] => isAZ u0 && isOmo u1 && isOmo u2 && isOmo u3
  | _ => false

/-- Spec-side even table of the checksum: the ordinal of the character,
0–9 among the digits and 0–25 among the letters. -/
def evenTableSpec (c : Char) : Nat :=
  if c ∈ DIGITS then DIGITS.indexOf c else AZ.indexOf c

/-- Spec-side odd table of the checksum: the fixed 26-entry permutation
indexed by the character's own 0-based digit, resp. letter, index. -/
def oddTableSpec (c : Char) : Nat :=
  oddValues.getD (if c ∈ DIGITS then DIGITS.indexOf c else AZ.indexOf c) 0

/-- Spec-side weighted sum of the checksum: odd-table value at even
0-based positions, even-table value at odd positions. -/
def specSum : Nat → List Char → Nat
  | _, [] => 0
  | i, c :: cs => (if i % 2 = 0 then oddTableSpec c else evenTableSpec c) + specSum (i + 1) cs

/-- Spec-side control code: the uppercase letter at (sum mod 26). -/
def control_code_spec (s : List Char) : Char := alphaChar (specSum 0 s % 26)

/-- The `"DD-MM-YY"` date string zero-padded from day, month and two-digit
year (`%02d-%02d-%02d` on non-negative components). -/
def dateStr (d m y2 : Nat) : List Char :=
  format2 d ++ ['-'] ++ format2 m ++ ['-'] ++ format2 y2

/-- `x` and `y` are a digit and its omocodia letter alias (in either
order) under the fixed bijection 0..9 → LMNPQRSTUV. -/
def omoAliasPair (x y : Char) : Bool :=
  (x ∈ DIGITS && y ∈ OMOCODIA && DIGITS.indexOf? x = OMOCODIA.indexOf? y) ||
  (y ∈ DIGITS && x ∈ OMOCODIA && DIGITS.indexOf? y = OMOCODIA.indexOf? x)

/-- Lifts `omoAliasPair` to optional characters: the two positions hold
either the same character or a digit/alias pair. -/
def optAlias (o1 o2 : Option Char) : Bool :=
  o1 = o2 ||
    (match o1, o2 with
     | some x, some y => omoAliasPair x y
     | _, _ => false)

/-! ## Helper lemmas -/

lemma pyToUpper_of_not_lower {c : Char} (h : c ∉ LOWERAZ) : pyToUpper c = c := by
  simp only [LOWERAZ, List.mem_cons, List.not_mem_nil, or_false, not_or] at h
  obtain ⟨h1, h2, h3, h4, h5, h6, h7, h8, h9, h10, h11, h12, h13, h14, h15, h16,
    h17, h18, h19, h20, h21, h22, h23, h24, h25, h26⟩ := h
  unfold pyToUpper
  rw [if_neg h1, if_neg h2, if_neg h3, if_neg h4, if_neg h5, if_neg h6,
    if_neg h7, if_neg h8, if_neg h9, if_neg h10, if_neg h11, if_neg h12,
    if_neg h13, if_neg h14, if_neg h15, if_neg h16, if_neg h17, if_neg h18,
    if_neg h19, if_neg h20, if_neg h21, if_neg h22, if_neg h23, if_neg h24,
    if_neg h25, if_neg h26]

lemma pyToUpper_idem (c : Char) : pyToUpper (pyToUpper c) = pyToUpper c := by
  by_cases h : c ∈ LOWERAZ
  · fin_cases h <;> decide
  · rw [pyToUpper_of_not_lower h, pyToUpper_of_not_lower h]

lemma pyToUpper_fixed {c : Char} (h : c ∈ AZ ∨ c ∈ DIGITS) : pyToUpper c = c := by
  apply pyToUpper_of_not_lower
  rcases h with h | h <;> fin_cases h <;> decide

lemma pyUpper_fixed {l : List Char} (h : ∀ c ∈ l, c ∈ AZ ∨ c ∈ DIGITS) :
    pyUpper l = l := by
  induction l with
  | nil => rfl
  | cons a t ih =>
    simp only [pyUpper, List.map_cons] at ih ⊢
    rw [pyToUpper_fixed (h a (by simp)), ih (fun c hc => h c (by simp [hc]))]

lemma mem_AZ_of_consonant {c : Char} (h : isConsonant c = true) : c ∈ AZ := by
  simp only [isConsonant, Bool.and_eq_true, decide_eq_true_eq] at h
  exact h.1

lemma mem_AZ_of_vowel {c : Char} (h : isVowel c = true) : c ∈ AZ := by
  simp only [isVowel, decide_eq_true_eq] at h
  fin_cases h <;> decide

lemma consonantsOf_subset_AZ {s : List Char} : ∀ c ∈ consonantsOf s, c ∈ AZ :=
  fun _ hc => mem_AZ_of_consonant (List.of_mem_filter hc)

lemma vowelsOf_subset_AZ {s : List Char} : ∀ c ∈ vowelsOf s, c ∈ AZ :=
  fun _ hc => mem_AZ_of_vowel (List.of_mem_filter hc)

lemma fillVowels_some (stopat : Nat) (vowels : List Char) :
    ∀ output : List Char, stopat ≤ output.length + vowels.length →
    (∀ c ∈ output, c ∈ AZ) → (∀ c ∈ vowels, c ∈ AZ) →
    ∃ out, fillVowels stopat output vowels = some out ∧
      out.length = max output.length stopat ∧ ∀ c ∈ out, c ∈ AZ := by
  induction vowels with
  | nil =>
    intro output h ho _
    simp only [List.length_nil, Nat.add_zero] at h
    refine ⟨output, ?_, by omega, ho⟩
    simp only [fillVowels]
    rw [if_neg (Nat.not_lt.2 h)]
  | cons v vs ih =>
    intro output h ho hv
    by_cases hlt : output.length < stopat
    · have h2 : stopat ≤ (output ++ [v]).length + vs.length := by
        simp only [List.length_append, List.length_singleton]
        simp only [List.length_cons] at h
        omega
      have ho2 : ∀ c ∈ output ++ [v], c ∈ AZ := by
        intro c hc
        rcases List.mem_append.1 hc with hm | hm
        · exact ho c hm
        · simp only [List.mem_singleton] at hm
          exact hv c (by simp [hm])
      obtain ⟨out, h1, hlen, h3⟩ := ih (output ++ [v])
        h2 ho2 (fun c hc => hv c (by simp [hc]))
      refine ⟨out, ?_, ?_, h3⟩
      · simpa only [fillVowels, if_pos hlt] using h1
      · simp only [List.length_append, List.length_singleton] at hlen
        omega
    · exact ⟨output, by simp only [fillVowels, if_neg hlt], by omega, ho⟩

lemma common_triplet_some (s cons vows : List Char)
    (h : (if s.length > 2 then 3 else 2) ≤ cons.length + vows.length)
    (hc : ∀ c ∈ cons, c ∈ AZ) (hv : ∀ c ∈ vows, c ∈ AZ) :
    ∃ t, common_triplet s cons vows = some t ∧ t.length = 3 ∧ ∀ c ∈ t, c ∈ AZ := by
  have hstop : 2 ≤ (if s.length > 2 then 3 else 2) := by split <;> omega
  obtain ⟨out, h1, h2, h3⟩ := fillVowels_some _ vows cons h hc hv
  by_cases hl : out.length = 2
  · refine ⟨(out ++ ['X']).take 3, ?_, ?_, ?_⟩
    · simp only [common_triplet, h1, hl, if_pos]
    · simp only [List.length_take, List.length_append, List.length_singleton, hl]
      omega
    · intro c hc'
      rcases List.mem_append.1 (List.take_subset 3 _ hc') with hm | hm
      · exact h3 c hm
      · simp only [List.mem_singleton] at hm
        subst hm
        decide
  · have hge : 3 ≤ out.length := by omega
    refine ⟨out.take 3, ?_, ?_, ?_⟩
    · simp only [common_triplet, h1, if_neg hl]
    · simp only [List.length_take]
      omega
    · intro c hc'
      exact h3 c (List.take_subset 3 _ hc')

lemma surname_triplet_some {s : List Char} (h : lettersEnough s = true) :
    ∃ t, surname_triplet s = some t ∧ t.length = 3 ∧ ∀ c ∈ t, c ∈ AZ := by
  simp only [lettersEnough, decide_eq_true_eq] at h
  exact common_triplet_some s _ _ h consonantsOf_subset_AZ vowelsOf_subset_AZ

lemma name_triplet_some {s : List Char} (h : nameOk s = true) :
    ∃ t, name_triplet s = some t ∧ t.length = 3 ∧ ∀ c ∈ t, c ∈ AZ := by
  simp only [nameOk, Bool.or_eq_true, decide_eq_true_eq] at h
  by_cases he : s = []
  · exact ⟨['X', 'X', 'X'], by simp [name_triplet, he], by decide⟩
  · by_cases hc : 3 < (consonantsOf s).length
    · refine ⟨[(consonantsOf s).get ⟨0, by omega⟩, (consonantsOf s).get ⟨2, by omega⟩,
        (consonantsOf s).get ⟨3, by omega⟩], ?_, by simp, ?_⟩
      · unfold name_triplet
        rw [if_neg he, dif_pos hc]
      · intro c hm
        simp only [List.mem_cons, List.not_mem_nil, or_false] at hm
        rcases hm with rfl | rfl | rfl <;>
          exact consonantsOf_subset_AZ _ (List.get_mem _ _ _)
    · have hle : lettersEnough s = true := by
        rcases h with (h | h) | h
        · exact absurd h he
        · exact absurd h hc
        · exact h
      simp only [lettersEnough, decide_eq_true_eq] at hle
      obtain ⟨t, h1, h2, h3⟩ :=
        common_triplet_some s _ _ hle consonantsOf_subset_AZ vowelsOf_subset_AZ
      exact ⟨t, by simp only [name_triplet, if_neg he, dif_neg hc, h1], h2, h3⟩

/-! ## C5: totality of the common triplet (corrected) -/

/-- C5, counterexample: the claim says the common-triplet algorithm (as
used by the surname triplet) terminates normally on every input, appending
a literal `X` when the vowels are exhausted, in particular on a string of
more than 2 characters with no vowels and fewer than 3 consonants.  On the
3-character input `"B-B"` (two consonants, no vowels) the code instead
pops from an empty vowel list, raising `IndexError`. -/
theorem c5_counterexample : surname_triplet ('B' :: '-' :: 'B' :: []) = none := by
  decide

/-- C5, amended: whenever the consonant count plus the vowel count reaches
the target length (3 for inputs longer than 2 characters, 2 otherwise),
the common triplet as used by the surname triplet terminates normally and
returns a 3-character string; inputs with too few letters make the
algorithm raise instead of padding with `X`. -/
theorem c5_amended {s : List Char} (h : lettersEnough s = true) :
    ∃ t, surname_triplet s = some t ∧ t.length = 3 := by
  obtain ⟨t, h1, h2, _⟩ := surname_triplet_some h
  exact ⟨t, h1, h2⟩

/-- C5, witness: the two-letter surname `"Fo"` has enough letters; the
algorithm pads with the literal `X` and returns the 3-character `"FOX"`. -/
theorem c5_witness :
    (∃ t, surname_triplet ('F' :: 'o' :: []) = some t ∧ t.length = 3) ∧
    surname_triplet ('F' :: 'o' :: []) = some ['F', 'O', 'X'] :=
  ⟨c5_amended (by decide), by decide⟩

/-! ## C6: the given-name triplet (confirmed) -/

/-- C6: the given-name triplet is the literal `"XXX"` for an empty name;
otherwise, when the consonant count exceeds 3, the 1st, 3rd and 4th
consonants (skipping the 2nd); otherwise the common triplet of the name's
consonants and vowels. -/
theorem c6_name_triplet (s : List Char) :
    (s = [] → name_triplet s = some ['X', 'X', 'X']) ∧
    (s ≠ [] → ∀ h : 3 < (consonantsOf s).length,
      name_triplet s = some [(consonantsOf s).get ⟨0, by omega⟩,
        (consonantsOf s).get ⟨2, by omega⟩, (consonantsOf s).get ⟨3, by omega⟩]) ∧
    (s ≠ [] → ¬ 3 < (consonantsOf s).length →
      name_triplet s = common_triplet s (consonantsOf s) (vowelsOf s)) := by
  refine ⟨?_, ?_, ?_⟩
  · intro h
    simp [name_triplet, h]
  · intro hne h
    simp only [name_triplet, if_neg hne, dif_pos h]
  · intro hne h
    simp only [name_triplet, if_neg hne, dif_neg h]

/-- C6, witness: `"CHRISTIAN"` has 6 consonants `CHRSTN`; the triplet is
the 1st, 3rd and 4th of them, `"CRS"`. -/
theorem c6_witness :
    name_triplet ("CHRISTIAN".toList) = some ['C', 'R', 'S'] := by
  have h := (c6_name_triplet ("CHRISTIAN".toList)).2.1 (by decide) (by decide)
  exact h.trans (by decide)

/-! ## C2: the control-code computation (confirmed) -/

lemma even_controlcode_eq {c : Char} (h : c ∈ DIGITS ∨ c ∈ AZ) :
    even_controlcode c = some (evenTableSpec c) := by
  rcases h with h | h <;> fin_cases h <;> decide

lemma odd_controlcode_eq {c : Char} (h : c ∈ DIGITS ∨ c ∈ AZ) :
    odd_controlcode c = some (oddTableSpec c) := by
  rcases h with h | h <;> fin_cases h <;> decide

lemma ccSum_eq_specSum (s : List Char) :
    ∀ i, (∀ c ∈ s, c ∈ DIGITS ∨ c ∈ AZ) → ccSum i s = some (specSum i s) := by
  induction s with
  | nil => intro i _; rfl
  | cons c cs ih =>
    intro i h
    have hc := h c (by simp)
    have hrest := ih (i + 1) (fun x hx => h x (by simp [hx]))
    by_cases hi : i % 2 = 0 <;>
      simp [ccSum, specSum, hi, odd_controlcode_eq hc, even_controlcode_eq hc, hrest]

/-- C2: on every 15-character string of digits and uppercase letters,
`control_code` computes the spec-side weighted sum (odd table at even
0-based positions, even table at odd positions; tables indexed by the
character's own digit, resp. letter, ordinal) and returns the uppercase
letter at (sum mod 26). -/
theorem c2_control_code (s : List Char) (hlen : s.length = 15)
    (hchars : ∀ c ∈ s, c ∈ DIGITS ∨ c ∈ AZ) :
    control_code s = some (control_code_spec s) := by
  simp only [control_code, if_pos hlen, ccSum_eq_specSum s 0 hchars,
    Option.map_some', control_code_spec]

/-- C2, witness: `control_code("RCCMNL83S18D969")` is `'H'`. -/
theorem c2_witness :
    control_code ("RCCMNL83S18D969".toList) = some 'H' := by
  have h := c2_control_code ("RCCMNL83S18D969".toList) (by decide) (by decide)
  exact h.trans (by decide)

/-! ## C3: `isvalid` never raises and folds every failure into `false`
(confirmed) -/

/-- C3: `isvalid` is a total boolean function (never raises); it returns
`true` exactly when the input is text of length 16 whose uppercased form
matches the positional pattern and whose last character equals the control
code of the first 15 — so it returns `false` for non-text input, wrong
length, pattern mismatch, and checksum mismatch. -/
theorem c3_isvalid_characterization (v : PyVal) :
    isvalid v = true ↔
      ∃ s, v = PyVal.str s ∧ s.length = 16 ∧ pattern_match (pyUpper s) = true ∧
        ∃ cc, control_code ((pyUpper s).take 15) = some cc ∧
          (pyUpper s).get? 15 = some cc := by
  cases v with
  | nonText =>
    constructor
    · intro h
      cases h
    · rintro ⟨s, h, -⟩
      cases h
  | str s =>
    show isvalid_str s = true ↔ _
    constructor
    · intro h
      unfold isvalid_str at h
      by_cases hlen : s.length ≠ 16
      · rw [if_pos hlen] at h
        cases h
      · rw [if_neg hlen] at h
        by_cases hp : pattern_match (pyUpper s) = false
        · rw [if_pos hp] at h
          cases h
        · rw [if_neg hp] at h
          cases hc : control_code ((pyUpper s).take 15) with
          | none =>
            rw [hc] at h
            cases h
          | some a =>
            rw [hc] at h
            cases hg : (pyUpper s).get? 15 with
            | none =>
              rw [hg] at h
              cases h
            | some b =>
              rw [hg] at h
              simp only [decide_eq_true_eq] at h
              subst h
              exact ⟨s, rfl, by omega, by simpa using hp, a, hc, hg⟩
    · rintro ⟨s', heq, hlen, hp, cc, hcc, hg⟩
      cases heq
      unfold isvalid_str
      rw [if_neg (by omega), if_neg (by simp [hp]), hcc, hg]
      simp

/-! ## C9: `isvalid` is case-insensitive (confirmed) -/

/-- C9: `isvalid` returns the same boolean on a text input and on its
uppercased form (the length check precedes the internal uppercasing, which
is idempotent and length-preserving); in particular the lowercase
rendering of a valid code is accepted. -/
theorem c9_isvalid_case_insensitive :
    (∀ s, isvalid (PyVal.str (pyUpper s)) = isvalid (PyVal.str s)) ∧
    isvalid (PyVal.str ("rccmnl83s18d969h".toList)) = true := by
  constructor
  · intro s
    show isvalid_str (pyUpper s) = isvalid_str s
    have hup : pyUpper (pyUpper s) = pyUpper s := by
      simp only [pyUpper, List.map_map]
      exact List.map_congr_left (fun c _ => pyToUpper_idem c)
    have hlen : (pyUpper s).length = s.length := by
      simp [pyUpper]
    unfold isvalid_str
    rw [hup, hlen]
  · decide

/-! ## C4: `get_sex` on valid codes (corrected) -/

/-- C4, counterexample: the claim says `get_sex` terminates normally with
`"M"` or `"F"` on every valid code, including codes with omocodia letters
in the day field.  The code `RCCMNL83S1UD969E` (day field `1U`, the
omocodia form of `18`) is valid, but `get_sex` applies `int()` to the raw
slice `"1U"` and raises `ValueError`. -/
theorem c4_counterexample :
    isvalid (PyVal.str ("RCCMNL83S1UD969E".toList)) = true ∧
    get_sex ("RCCMNL83S1UD969E".toList) = none := by
  decide

lemma drop9_take2 {code : List Char} {c9 c10 : Char}
    (h9 : code.get? 9 = some c9) (h10 : code.get? 10 = some c10) :
    (code.drop 9).take 2 = [c9, c10] := by
  have d0 : (code.drop 9).get? 0 = some c9 := by
    rw [List.get?_drop]
    exact h9
  have d1 : (code.drop 9).get? 1 = some c10 := by
    rw [List.get?_drop]
    exact h10
  rcases hd : code.drop 9 with _ | ⟨x, _ | ⟨y, t⟩⟩
  · rw [hd] at d0
    cases d0
  · rw [hd] at d1
    cases d1
  · rw [hd] at d0 d1
    simp only [List.get?] at d0 d1
    obtain rfl := Option.some.inj d0
    obtain rfl := Option.some.inj d1
    rfl

/-- C4, amended: on every valid code whose two day-field characters
(positions 10–11, 1-indexed) are digits, `get_sex` terminates normally and
returns `"M"` when their two-digit value is below 32 and `"F"` otherwise;
on valid codes with an omocodia letter in the day field it instead raises,
because `int(code[9:11])` is applied without the omocodia translation. -/
theorem c4_amended (code : List Char) (c9 c10 : Char)
    (hv : isvalid_str code = true)
    (h9 : code.get? 9 = some c9) (h10 : code.get? 10 = some c10)
    (hd9 : c9 ∈ DIGITS) (hd10 : c10 ∈ DIGITS) :
    get_sex code =
      some (if DIGITS.indexOf c9 * 10 + DIGITS.indexOf c10 < 32 then 'M' else 'F') := by
  unfold get_sex
  rw [if_pos hv, drop9_take2 h9 h10]
  unfold parseNat
  rw [if_pos ⟨by simp, by simp [hd9, hd10]⟩]
  simp only [List.foldl, Option.map_some']
  norm_num

/-- C4, witness: `get_sex("RCCMNL83S18D969H")` is `'M'` (day field `18`). -/
theorem c4_witness : get_sex ("RCCMNL83S18D969H".toList) = some 'M' := by
  have h := c4_amended ("RCCMNL83S18D969H".toList) '1' '8' (by decide) (by decide)
    (by decide) (by decide) (by decide)
  exact h.trans (by decide)

/-! ## C10: `get_birthday` on a day field decoding to zero (corrected) -/

/-- C10, counterexample: the claim quantifies over every valid code whose
two day-field characters decode to 0.  The valid code `RCCMNLl3S00D969Z`
(lowercase `l` in the year field, day field `00`) is such a code, but
`get_birthday` looks the raw lowercase character up in `day_year_charmap`
and raises `KeyError` instead of reporting the day as -40. -/
theorem c10_counterexample :
    isvalid (PyVal.str ("RCCMNLl3S00D969Z".toList)) = true ∧
    (("RCCMNLl3S00D969Z".toList).get? 9).bind day_year_charmap = some 0 ∧
    (("RCCMNLl3S00D969Z".toList).get? 10).bind day_year_charmap = some 0 ∧
    get_birthday ("RCCMNLl3S00D969Z".toList) = none := by
  decide

/-- C10, amended: on every valid code whose two day-field characters both
decode to 0 under the omocodia map and whose year and month fields decode
successfully (e.g. any such all-uppercase code), `get_birthday` reports the
day component as `-40` rather than `0`: the `day < 32 and day or day - 40`
idiom treats the value 0 as false and falls through to the subtract-40
branch. -/
theorem c10_amended (code : List Char)
    (hv : isvalid_str code = true)
    (h9 : (code.get? 9).bind day_year_charmap = some 0)
    (h10 : (code.get? 10).bind day_year_charmap = some 0)
    (hm : ((code.get? 8).bind (fun c => MONTHSCODE.indexOf? c)).isSome = true)
    (h6 : ((code.get? 6).bind day_year_charmap).isSome = true)
    (h7 : ((code.get? 7).bind day_year_charmap).isSome = true) :
    ∃ tail, get_birthday code = some (['-', '4', '0', '-'] ++ tail) := by
  obtain ⟨mi, hmi⟩ := Option.isSome_iff_exists.1 hm
  obtain ⟨v6, hv6⟩ := Option.isSome_iff_exists.1 h6
  obtain ⟨v7, hv7⟩ := Option.isSome_iff_exists.1 h7
  refine ⟨format2i ((mi + 1 : Nat) : Int) ++ ['-'] ++
    format2i ((v6 * 10 + v7 : Nat) : Int), ?_⟩
  unfold get_birthday
  rw [if_pos hv]
  simp only [h9, h10, hmi, hv6, hv7, Option.pure_def, Option.bind_eq_bind,
    Option.some_bind]
  have hday : (if (0 * 10 + 0 < 32 ∧ 0 * 10 + 0 ≠ 0) then ((0 * 10 + 0 : Nat) : Int)
      else ((0 * 10 + 0 : Nat) : Int) - 40) = -40 := by norm_num
  rw [hday]
  have hfmt : format2i (-40 : Int) = ['-', '4', '0'] := by decide
  rw [hfmt]
  simp

/-- C10, witness: the all-uppercase valid code `RCCMNL83S00D969O` has day
field `00`; `get_birthday` returns `"-40-11-83"`. -/
theorem c10_witness :
    (∃ tail, get_birthday ("RCCMNL83S00D969O".toList) =
      some (['-', '4', '0', '-'] ++ tail)) ∧
    get_birthday ("RCCMNL83S00D969O".toList) = some ("-40-11-83".toList) :=
  ⟨c10_amended _ (by decide) (by decide) (by decide) (by decide) (by decide)
    (by decide), by decide⟩

/-! ## C7: `get_birthday` is omocodia-invariant in the year and day fields
(confirmed) -/

lemma not_digit_of_omocodia {c : Char} (h : c ∈ OMOCODIA) : c ∉ DIGITS := by
  fin_cases h <;> decide

lemma omoAliasPair_charmap {x y : Char} (h : omoAliasPair x y = true) :
    day_year_charmap x = day_year_charmap y := by
  simp only [omoAliasPair, Bool.or_eq_true, Bool.and_eq_true, decide_eq_true_eq] at h
  rcases h with ⟨⟨hx, hy⟩, hidx⟩ | ⟨⟨hy, hx⟩, hidx⟩
  · unfold day_year_charmap
    rw [if_pos hx, if_neg (not_digit_of_omocodia hy), if_pos hy]
    exact hidx
  · unfold day_year_charmap
    rw [if_neg (not_digit_of_omocodia hx), if_pos hx, if_pos hy]
    exact hidx.symm

lemma optAlias_charmap {o1 o2 : Option Char} (h : optAlias o1 o2 = true) :
    o1.bind day_year_charmap = o2.bind day_year_charmap := by
  simp only [optAlias, Bool.or_eq_true, decide_eq_true_eq] at h
  rcases h with h | h
  · rw [h]
  · cases o1 with
    | none => cases h
    | some x =>
      cases o2 with
      | none => cases h
      | some y =>
        simp only [Option.some_bind]
        exact omoAliasPair_charmap h

/-- C7: for every pair of valid codes that agree at every position except
possibly at the digit positions 7, 8, 10, 11 (1-indexed) — where one may
hold a digit and the other its omocodia letter alias — and at the
recomputed control-code position, `get_birthday` returns the same string
for both. -/
theorem c7_get_birthday_omocodia_invariant (a b : List Char)
    (ha : isvalid (PyVal.str a) = true) (hb : isvalid (PyVal.str b) = true)
    (heq : ∀ i, i < 16 → i ≠ 6 → i ≠ 7 → i ≠ 9 → i ≠ 10 → i ≠ 15 →
      a.get? i = b.get? i)
    (hal : ∀ i, i < 16 → (i = 6 ∨ i = 7 ∨ i = 9 ∨ i = 10) →
      optAlias (a.get? i) (b.get? i) = true) :
    get_birthday a = get_birthday b := by
  have e6 := optAlias_charmap (hal 6 (by omega) (Or.inl rfl))
  have e7 := optAlias_charmap (hal 7 (by omega) (Or.inr (Or.inl rfl)))
  have e9 := optAlias_charmap (hal 9 (by omega) (Or.inr (Or.inr (Or.inl rfl))))
  have e10 := optAlias_charmap (hal 10 (by omega) (Or.inr (Or.inr (Or.inr rfl))))
  have e8 : a.get? 8 = b.get? 8 :=
    heq 8 (by omega) (by omega) (by omega) (by omega) (by omega) (by omega)
  unfold get_birthday
  rw [if_pos (show isvalid_str a = true from ha),
    if_pos (show isvalid_str b = true from hb)]
  simp only [e6, e7, e9, e10, e8]

/-- C7, witness: the code `RCCMNL83S18D969H` and its omocodia variant
`RCCMNL83S1UD969E` (day unit digit `8` replaced by its alias `U`, control
code recomputed) decode to the same birthday. -/
theorem c7_witness :
    get_birthday ("RCCMNL83S18D969H".toList) =
      get_birthday ("RCCMNL83S1UD969E".toList) :=
  c7_get_birthday_omocodia_invariant _ _ (by decide) (by decide)
    (by
      intro i hi h1 h2 h3 h4 h5
      interval_cases i <;> first | decide | omega)
    (by
      intro i hi h
      rcases h with rfl | rfl | rfl | rfl <;> decide)

/-! ## Decimal-representation and table lemmas for `build` -/

lemma natReprAux_small {f n : Nat} (hf : 0 < f) (hn : n < 10) :
    natReprAux f n = [DIGITS.getD n '0'] := by
  cases f with
  | zero => omega
  | succ f => simp [natReprAux, hn]

lemma natReprAux_step {f n : Nat} (hf : 0 < f) (hn : 10 ≤ n) :
    natReprAux f n = natReprAux (f - 1) (n / 10) ++ [DIGITS.getD (n % 10) '0'] := by
  cases f with
  | zero => omega
  | succ f => simp [natReprAux, Nat.not_lt.2 hn]

lemma natReprAux_fuel {n : Nat} : ∀ {f g : Nat}, n < f → n < g →
    natReprAux f n = natReprAux g n := by
  induction n using Nat.strong_induction_on with
  | _ n ih =>
    intro f g hf hg
    by_cases hn : n < 10
    · rw [natReprAux_small (by omega) hn, natReprAux_small (by omega) hn]
    · push_neg at hn
      rw [natReprAux_step (by omega) hn, natReprAux_step (by omega) hn]
      congr 1
      exact ih (n / 10) (by omega) (by omega) (by omega)

lemma natRepr_small {n : Nat} (hn : n < 10) : natRepr n = [DIGITS.getD n '0'] :=
  natReprAux_small (by omega) hn

lemma natRepr_step {n : Nat} (hn : 10 ≤ n) :
    natRepr n = natRepr (n / 10) ++ [DIGITS.getD (n % 10) '0'] := by
  rw [natRepr, natReprAux_step (by omega) hn]
  congr 1
  exact natReprAux_fuel (by omega) (by omega)

lemma natRepr_year {y : Nat} (h1 : 1000 ≤ y) (h2 : y ≤ 9999) :
    natRepr y = [DIGITS.getD (y / 1000) '0', DIGITS.getD (y / 100 % 10) '0',
      DIGITS.getD (y / 10 % 10) '0', DIGITS.getD (y % 10) '0'] := by
  have e1 : y / 10 / 10 = y / 100 := by omega
  have e2 : y / 100 / 10 = y / 1000 := by omega
  rw [natRepr_step (by omega : 10 ≤ y),
    natRepr_step (by omega : 10 ≤ y / 10), e1,
    natRepr_step (by omega : 10 ≤ y / 100), e2,
    natRepr_small (by omega : y / 1000 < 10)]
  simp

lemma format2_two {n : Nat} (h : n ≤ 99) :
    format2 n = [DIGITS.getD (n / 10) '0', DIGITS.getD (n % 10) '0'] := by
  by_cases hn : n < 10
  · have e0 : n / 10 = 0 := by omega
    have en : n % 10 = n := by omega
    unfold format2
    rw [natRepr_small hn]
    simp [e0, en, DIGITS]
  · push_neg at hn
    unfold format2
    rw [natRepr_step hn, natRepr_small (by omega : n / 10 < 10)]
    simp

lemma format2i_natCast (n : Nat) : format2i ((n : Nat) : Int) = format2 n := by
  unfold format2i format2
  rw [if_neg (by omega : ¬((n : Int) < 0)), Int.toNat_natCast]

lemma getD_DIGITS_mem (k : Nat) (h : k < 10) : DIGITS.getD k '0' ∈ DIGITS := by
  interval_cases k <;> decide

lemma charmap_digit {k : Nat} (h : k < 10) :
    day_year_charmap (DIGITS.getD k '0') = some k := by
  interval_cases k <;> decide

lemma months_facts {j : Nat} (h : j < 12) :
    ∃ mc, MONTHSCODE.get? j = some mc ∧ mc ∈ MONTHSCODE ∧
      MONTHSCODE.indexOf? mc = some j := by
  interval_cases j <;> exact ⟨_, rfl, by decide, by decide⟩

lemma isAZ_of_mem {c : Char} (h : c ∈ AZ) : isAZ c = true := by
  simp [isAZ, h]

lemma isOmo_of_digit {c : Char} (h : c ∈ DIGITS) : isOmo c = true := by
  simp [isOmo, h]

lemma isOmo_valid {c : Char} (h : isOmo c = true) : c ∈ AZ ∨ c ∈ DIGITS := by
  simp only [isOmo, Bool.or_eq_true, decide_eq_true_eq] at h
  rcases h with h | h
  · exact Or.inr h
  · exact Or.inl (by fin_cases h <;> decide)

lemma isMonth_of_mem {c : Char} (h : c ∈ MONTHSCODE) : isMonthChar c = true := by
  fin_cases h <;> decide

lemma mem_AZ_of_month {c : Char} (h : c ∈ MONTHSCODE) : c ∈ AZ := by
  fin_cases h <;> decide

lemma alphaChar_mem {k : Nat} (h : k < 26) : alphaChar k ∈ AZ := by
  interval_cases k <;> decide

lemma control_code_some {s : List Char} (hlen : s.length = 15)
    (h : ∀ c ∈ s, c ∈ DIGITS ∨ c ∈ AZ) :
    control_code s = some (alphaChar (specSum 0 s % 26)) ∧
      alphaChar (specSum 0 s % 26) ∈ AZ :=
  ⟨by simp only [control_code, if_pos hlen, ccSum_eq_specSum s 0 h, Option.map_some'],
   alphaChar_mem (Nat.mod_lt _ (by omega))⟩

lemma isvalid_str_intro {code : List Char} {cc : Char} (hlen : code.length = 16)
    (hup : pyUpper code = code) (hpat : pattern_match code = true)
    (hcc : control_code (code.take 15) = some cc)
    (hg : code.get? 15 = some cc) : isvalid_str code = true := by
  unfold isvalid_str
  rw [if_neg (by simp [hlen])]
  simp only [hup]
  rw [if_neg (by simp [hpat]), hcc, hg]
  simp

set_option maxHeartbeats 2000000 in
/-- Any 15-character prefix whose positions carry the right character
classes admits a control code, and appending it yields a string accepted
by `isvalid`. -/
lemma build_code_valid {a0 a1 a2 b0 b1 b2 y6 y7 mc dH dL u0 u1 u2 u3 : Char}
    (ha0 : a0 ∈ AZ) (ha1 : a1 ∈ AZ) (ha2 : a2 ∈ AZ)
    (hb0 : b0 ∈ AZ) (hb1 : b1 ∈ AZ) (hb2 : b2 ∈ AZ)
    (hy6 : y6 ∈ DIGITS) (hy7 : y7 ∈ DIGITS)
    (hmc : mc ∈ MONTHSCODE)
    (hdH : dH ∈ DIGITS) (hdL : dL ∈ DIGITS)
    (hu0 : u0 ∈ AZ) (hu1 : isOmo u1 = true) (hu2 : isOmo u2 = true)
    (hu3 : isOmo u3 = true) :
    ∃ cc, cc ∈ AZ ∧
      control_code [a0, a1, a2, b0, b1, b2, y6, y7, mc, dH, dL, u0, u1, u2, u3] =
        some cc ∧
      isvalid_str ([a0, a1, a2, b0, b1, b2, y6, y7, mc, dH, dL, u0, u1, u2, u3] ++
        [cc]) = true := by
  have hchars : ∀ c ∈ ([a0, a1, a2, b0, b1, b2, y6, y7, mc, dH, dL,
      u0, u1, u2, u3] : List Char), c ∈ DIGITS ∨ c ∈ AZ := by
    intro c hc
    simp only [List.mem_cons, List.not_mem_nil, or_false] at hc
    rcases hc with rfl | rfl | rfl | rfl | rfl | rfl | rfl | rfl | rfl | rfl |
      rfl | rfl | rfl | rfl | rfl
    · exact Or.inr ha0
    · exact Or.inr ha1
    · exact Or.inr ha2
    · exact Or.inr hb0
    · exact Or.inr hb1
    · exact Or.inr hb2
    · exact Or.inl hy6
    · exact Or.inl hy7
    · exact Or.inr (mem_AZ_of_month hmc)
    · exact Or.inl hdH
    · exact Or.inl hdL
    · exact Or.inr hu0
    · exact (isOmo_valid hu1).symm
    · exact (isOmo_valid hu2).symm
    · exact (isOmo_valid hu3).symm
  obtain ⟨hcc, hccAZ⟩ := control_code_some (by rfl) hchars
  refine ⟨_, hccAZ, hcc, ?_⟩
  refine isvalid_str_intro ?_ ?_ ?_ hcc ?_
  · rfl
  · apply pyUpper_fixed
    intro c hc
    rcases List.mem_append.1 hc with hm | hm
    · exact (hchars c hm).symm
    · simp only [List.mem_singleton] at hm
      subst hm
      exact Or.inl hccAZ
  · show pattern_match [a0, a1, a2, b0, b1, b2, y6, y7, mc, dH, dL,
      u0, u1, u2, u3, alphaChar (specSum 0 [a0, a1, a2, b0, b1, b2, y6, y7, mc,
        dH, dL, u0, u1, u2, u3] % 26)] = true
    simp only [pattern_match]
    rw [isAZ_of_mem ha0, isAZ_of_mem ha1, isAZ_of_mem ha2, isAZ_of_mem hb0,
      isAZ_of_mem hb1, isAZ_of_mem hb2, isOmo_of_digit hy6, isOmo_of_digit hy7,
      isMonth_of_mem hmc, isOmo_of_digit hdH, isOmo_of_digit hdL,
      isAZ_of_mem hu0, hu1, hu2, hu3, isAZ_of_mem hccAZ]
    rfl
  · rfl

set_option maxHeartbeats 2000000 in
/-- Under the full preconditions — enough letters in the surname, a
name acceptable to `__name_triplet`, a four-digit year, month 1–12, day
1–31, and a municipality code matching its positional classes — `build`
succeeds and produces exactly the concatenation of the two triplets, the
two-digit year, the month letter, the two-digit day(+offset), the
municipality code, and a control code, and the result passes `isvalid`. -/
lemma build_explicit (surname name : List Char) (y m d : Nat) (sex : Char)
    (muni : List Char)
    (hs : lettersEnough surname = true) (hn : nameOk name = true)
    (hy1 : 1000 ≤ y) (hy2 : y ≤ 9999) (hm1 : 1 ≤ m) (hm2 : m ≤ 12)
    (hd1 : 1 ≤ d) (hd2 : d ≤ 31) (hmu : muniOk muni = true) :
    ∃ a0 a1 a2 b0 b1 b2 mc cc,
      MONTHSCODE.indexOf? mc = some (m - 1) ∧ cc ∈ AZ ∧
      build surname name ⟨y, m, d⟩ sex muni =
        some ([a0, a1, a2, b0, b1, b2,
          DIGITS.getD (y / 10 % 10) '0', DIGITS.getD (y % 10) '0', mc,
          DIGITS.getD ((if sex = 'M' then d else 40 + d) / 10) '0',
          DIGITS.getD ((if sex = 'M' then d else 40 + d) % 10) '0'] ++
          muni ++ [cc]) ∧
      isvalid_str ([a0, a1, a2, b0, b1, b2,
          DIGITS.getD (y / 10 % 10) '0', DIGITS.getD (y % 10) '0', mc,
          DIGITS.getD ((if sex = 'M' then d else 40 + d) / 10) '0',
          DIGITS.getD ((if sex = 'M' then d else 40 + d) % 10) '0'] ++
          muni ++ [cc]) = true := by
  obtain ⟨st, hst, hst3, hstAZ⟩ := surname_triplet_some hs
  obtain ⟨nt, hnt, hnt3, hntAZ⟩ := name_triplet_some hn
  obtain ⟨a0, a1, a2, rfl⟩ := List.length_eq_three.1 hst3
  obtain ⟨b0, b1, b2, rfl⟩ := List.length_eq_three.1 hnt3
  obtain ⟨mc, hmc, hmcMem, hmcIdx⟩ := months_facts (show m - 1 < 12 by omega)
  rcases muni with _ | ⟨u0, _ | ⟨u1, _ | ⟨u2, _ | ⟨u3, _ | ⟨u4, rest⟩⟩⟩⟩⟩ <;>
    try exact Bool.noConfusion hmu
  simp only [muniOk, Bool.and_eq_true] at hmu
  obtain ⟨⟨⟨h0, h1⟩, h2⟩, h3⟩ := hmu
  have h0AZ : u0 ∈ AZ := by simpa [isAZ] using h0
  have hdd99 : (if sex = 'M' then d else 40 + d) ≤ 99 := by split <;> omega
  obtain ⟨cc, hccAZ, hcc, hvalid⟩ := build_code_valid
    (hstAZ a0 (by simp)) (hstAZ a1 (by simp)) (hstAZ a2 (by simp))
    (hntAZ b0 (by simp)) (hntAZ b1 (by simp)) (hntAZ b2 (by simp))
    (getD_DIGITS_mem (y / 10 % 10) (by omega))
    (getD_DIGITS_mem (y % 10) (by omega)) hmcMem
    (getD_DIGITS_mem ((if sex = 'M' then d else 40 + d) / 10) (by omega))
    (getD_DIGITS_mem ((if sex = 'M' then d else 40 + d) % 10) (by omega))
    h0AZ h1 h2 h3
  refine ⟨a0, a1, a2, b0, b1, b2, mc, cc, hmcIdx, hccAZ, ?_, ?_⟩
  · unfold build
    have hdne : (if d ≠ 0 then d else 40 + d) = d := if_pos (by omega)
    simp only [hst, hnt, hmc, Option.bind_eq_bind, Option.some_bind, hdne]
    rw [natRepr_year hy1 hy2, format2_two hdd99]
    simp only [List.drop, List.cons_append, List.nil_append]
    rw [hcc]
    simp only [Option.some_bind]
    have hvalid2 : isvalid_str [a0, a1, a2, b0, b1, b2,
        DIGITS.getD (y / 10 % 10) '0', DIGITS.getD (y % 10) '0', mc,
        DIGITS.getD ((if sex = 'M' then d else 40 + d) / 10) '0',
        DIGITS.getD ((if sex = 'M' then d else 40 + d) % 10) '0',
        u0, u1, u2, u3, cc] = true := hvalid
    rw [if_pos hvalid2]
  · exact hvalid

/-! ## C1: `isvalid ∘ build` (corrected) -/

/-- C1, counterexample: the claim's stated preconditions allow any
4-character municipality code, but `build` with the 4-character code
`"0000"` produces a string that fails the positional pattern (position 12
must be a letter), so the internal `assert isvalid(output)` fails and
`build` raises instead of returning a code that `isvalid` accepts. -/
theorem c1_counterexample :
    build ("Rocca".toList) ("Emanuele".toList) ⟨1983, 11, 18⟩ 'M'
      ("0000".toList) = none := by
  decide

/-- C1, amended: with the preconditions strengthened to what the code
needs — surname with enough letters, name empty or with enough
letters/consonants, four-digit year, month 1–12, day 1–31, sex `M` or `F`,
and a municipality code matching its positional classes (letter followed
by three digit-or-omocodia characters) — `build` returns a code and
`isvalid` accepts it. -/
theorem c1_amended (surname name : List Char) (y m d : Nat) (sex : Char)
    (muni : List Char)
    (hs : lettersEnough surname = true) (hn : nameOk name = true)
    (hy1 : 1000 ≤ y) (hy2 : y ≤ 9999) (hm1 : 1 ≤ m) (hm2 : m ≤ 12)
    (hd1 : 1 ≤ d) (hd2 : d ≤ 31) (hsex : sex = 'M' ∨ sex = 'F')
    (hmu : muniOk muni = true) :
    ∃ code, build surname name ⟨y, m, d⟩ sex muni = some code ∧
      isvalid (PyVal.str code) = true := by
  obtain ⟨a0, a1, a2, b0, b1, b2, mc, cc, -, -, hb, hv⟩ :=
    build_explicit surname name y m d sex muni hs hn hy1 hy2 hm1 hm2 hd1 hd2 hmu
  exact ⟨_, hb, hv⟩

/-- C1, witness: `build("Rocca", "Emanuele", 1983-11-18, M, "D969")`
returns exactly `"RCCMNL83S18D969H"`, which `isvalid` accepts. -/
theorem c1_witness :
    (∃ code, build ("Rocca".toList) ("Emanuele".toList) ⟨1983, 11, 18⟩ 'M'
        ("D969".toList) = some code ∧ isvalid (PyVal.str code) = true) ∧
    build ("Rocca".toList) ("Emanuele".toList) ⟨1983, 11, 18⟩ 'M'
      ("D969".toList) = some ("RCCMNL83S18D969H".toList) :=
  ⟨c1_amended _ _ _ _ _ _ _ (by decide) (by decide) (by omega) (by omega)
      (by omega) (by omega) (by omega) (by omega) (Or.inl rfl) (by decide),
   by decide⟩

/-! ## C8: date round trip (corrected) -/

/-- C8, counterexample: the claim quantifies over build's stated
preconditions, which allow any integer birth year.  With the two-digit
year 83, `str(year)[2:]` is empty, the built string has length 15, its
checksum assertion fails and `build` raises, so the round trip does not
produce `"18-11-83"`. -/
theorem c8_counterexample :
    (build ("Rocca".toList) ("Emanuele".toList) ⟨83, 11, 18⟩ 'M'
      ("D969".toList)).bind get_birthday ≠ some (dateStr 18 11 83) := by
  decide

lemma get_birthday_decode (code : List Char) (v9 v10 mi v6 v7 : Nat)
    (hval : isvalid_str code = true)
    (h9 : (code.get? 9).bind day_year_charmap = some v9)
    (h10 : (code.get? 10).bind day_year_charmap = some v10)
    (hmi : (code.get? 8).bind (fun c => MONTHSCODE.indexOf? c) = some mi)
    (h6 : (code.get? 6).bind day_year_charmap = some v6)
    (h7 : (code.get? 7).bind day_year_charmap = some v7) :
    get_birthday code =
      some (format2i (if v9 * 10 + v10 < 32 ∧ v9 * 10 + v10 ≠ 0
          then ((v9 * 10 + v10 : Nat) : Int)
          else ((v9 * 10 + v10 : Nat) : Int) - 40) ++
        ['-'] ++ format2i ((mi + 1 : Nat) : Int) ++ ['-'] ++
        format2i ((v6 * 10 + v7 : Nat) : Int)) := by
  unfold get_birthday
  rw [if_pos hval]
  simp only [h9, h10, hmi, h6, h7, Option.pure_def, Option.bind_eq_bind,
    Option.some_bind]

set_option maxHeartbeats 1000000 in
/-- C8, amended: under the same strengthened preconditions as the amended
C1, the round trip holds: `get_birthday` applied to `build`'s result is
the string `"DD-MM-YY"` zero-padded from the day, the month, and the year
mod 100, for either sex. -/
theorem c8_amended (surname name : List Char) (y m d : Nat) (sex : Char)
    (muni : List Char)
    (hs : lettersEnough surname = true) (hn : nameOk name = true)
    (hy1 : 1000 ≤ y) (hy2 : y ≤ 9999) (hm1 : 1 ≤ m) (hm2 : m ≤ 12)
    (hd1 : 1 ≤ d) (hd2 : d ≤ 31) (hsex : sex = 'M' ∨ sex = 'F')
    (hmu : muniOk muni = true) :
    (build surname name ⟨y, m, d⟩ sex muni).bind get_birthday =
      some (dateStr d m (y % 100)) := by
  obtain ⟨a0, a1, a2, b0, b1, b2, mc, cc, hmcIdx, hccAZ, hb, hv⟩ :=
    build_explicit surname name y m d sex muni hs hn hy1 hy2 hm1 hm2 hd1 hd2 hmu
  have hdd99 : (if sex = 'M' then d else 40 + d) ≤ 99 := by split <;> omega
  rw [hb, Option.some_bind]
  rw [get_birthday_decode _ ((if sex = 'M' then d else 40 + d) / 10)
    ((if sex = 'M' then d else 40 + d) % 10) (m - 1) (y / 10 % 10) (y % 10)
    hv (charmap_digit (by omega)) (charmap_digit (by omega)) hmcIdx
    (charmap_digit (by omega)) (charmap_digit (by omega))]
  congr 1
  have hdd : (if sex = 'M' then d else 40 + d) / 10 * 10 +
      (if sex = 'M' then d else 40 + d) % 10 = (if sex = 'M' then d else 40 + d) := by
    omega
  rw [hdd]
  have hm' : m - 1 + 1 = m := by omega
  rw [hm']
  have hy' : y / 10 % 10 * 10 + y % 10 = y % 100 := by omega
  rw [hy']
  rcases hsex with rfl | rfl
  · have hsd : (if ('M' : Char) = 'M' then d else 40 + d) = d := if_pos rfl
    rw [hsd, if_pos ⟨by omega, by omega⟩, format2i_natCast, format2i_natCast,
      format2i_natCast]
    rfl
  · have hsd : (if ('F' : Char) = 'M' then d else 40 + d) = 40 + d :=
      if_neg (by decide)
    rw [hsd, if_neg (by omega)]
    have hcast : ((40 + d : Nat) : Int) - 40 = ((d : Nat) : Int) := by
      push_cast
      ring
    rw [hcast, format2i_natCast, format2i_natCast, format2i_natCast]
    rfl

/-- C8, witness: the female variant
`build("Rocca", "Emanuele", 1983-11-18, F, "D969")` round-trips to
`"18-11-83"`. -/
theorem c8_witness :
    (build ("Rocca".toList) ("Emanuele".toList) ⟨1983, 11, 18⟩ 'F'
      ("D969".toList)).bind get_birthday = some (dateStr 18 11 (1983 % 100)) ∧
    dateStr 18 11 (1983 % 100) = "18-11-83".toList :=
  ⟨c8_amended _ _ _ _ _ _ _ (by decide) (by decide) (by omega) (by omega)
      (by omega) (by omega) (by omega) (by omega) (Or.inr rfl) (by decide),
   by decide⟩

end Codicefiscale
